import Mathlib

/-!
# Screwdriver launcher: environment, workspace and step execution

A shallow embedding of `launch.go` and `executor/executor.go`.

Go strings are modelled by `String`; the operations of package `strings`
that the program uses are defined on the characters of the string.  The
splitting characters (`=`, a space, `:`, `/`) are single bytes that never occur
inside a multi-byte UTF-8 sequence, so splitting on characters and splitting
on bytes agree.
-/

namespace Launcher

/-! ## Package `strings` -/

/-- Go `strings.HasPrefix(t, m)`. -/
def hasPrefix (t m : String) : Bool :=
  m.data.isPrefixOf t.data

/-- Fields of a character list cut at every occurrence of `sep`: `n`
separators give `n + 1` fields, and the empty input gives one empty field. -/
def splitChars (sep : Char) : List Char → List (List Char)
  | [] => [[]]
  | c :: cs =>
    if c = sep then [] :: splitChars sep cs
    else
      match splitChars sep cs with
      | [] => [[c]]
      | f :: fs => (c :: f) :: fs

/-- Go `strings.Split(t, sep)` for a one-character separator. -/
def split (t : String) (sep : Char) : List String :=
  (splitChars sep t.data).map String.mk

/-- Pieces of `strings.SplitAfterN(e, "=", 2)` on characters: the text up to
and including the first `=`, then the rest; a text without `=` is one piece. -/
def splitAfterEqChars : List Char → List (List Char)
  | [] => [[]]
  | c :: cs =>
    if c = '=' then [[c], cs]
    else
      match splitAfterEqChars cs with
      | [p0, p1] => [c :: p0, p1]
      | _ => [c :: cs]

/-- Go `strings.SplitAfterN(e, "=", 2)`. -/
def splitAfterN2 (e : String) : List String :=
  (splitAfterEqChars e.data).map String.mk

/-- Go `strings.Join(xs, sep)`. -/
def join (xs : List String) (sep : String) : String :=
  sep.intercalate xs

/-! ## Go maps from strings to strings

A map is a list of bindings with pairwise distinct keys.  Go iterates over a
map in an unspecified order; the order of the list stands for one such order
and no statement below depends on it. -/

/-- A `map[string]string`. -/
abbrev StrMap := List (String × String)

/-- The assignment `m[k] = v`. -/
def StrMap.set (m : StrMap) (k v : String) : StrMap :=
  (k, v) :: m.filter (fun p => p.1 ≠ k)

/-- The builtin `delete(m, k)`. -/
def StrMap.delete (m : StrMap) (k : String) : StrMap :=
  m.filter (fun p => p.1 ≠ k)

/-- The lookup `m[k]`, `none` when the key is absent. -/
def StrMap.get (m : StrMap) (k : String) : Option String :=
  (m.find? (fun p => p.1 = k)).map Prod.snd

/-! ## `launch.go`: createEnvironment -/

/-- A secret of the control plane (`screwdriver.Secret`). -/
structure Secret where
  Name : String
  Value : String
deriving DecidableEq, Repr

/-- One round of the first loop of `createEnvironment`: an entry of the
inherited environment with an `=` is bound, any other entry is skipped. -/
def addEnviron (combined : StrMap) (e : String) : StrMap :=
  match splitAfterN2 e with
  | [p0, p1] => combined.set (String.mk p0.data.dropLast) p1
  | _ => combined

/-- The variables deleted from the merged environment. -/
def denylist : List String := ["SD_TOKEN"]

/-- Go `createEnvironment(base, secrets)`, with the result of `os.Environ()`
as the first argument. -/
def createEnvironment (environ : List String) (base : StrMap) (secrets : List Secret) :
    List String :=
  let combined : StrMap := []
  let combined := environ.foldl addEnviron combined
  let combined := base.foldl (fun m p => m.set p.1 p.2) combined
  let combined := secrets.foldl (fun m s => m.set s.Name s.Value) combined
  let combined := denylist.foldl StrMap.delete combined
  combined.map (fun p => join [p.1, p.2] "=")

/-! ## Errors, panics and the outside world -/

/-- A Go `error` value: one made by a collaborator (operating system,
control plane, JSON encoder), or one made by `fmt.Errorf` from a format, the
texts substituted in it and, where the format ends in the cause, that cause. -/
inductive Error where
  | external (msg : String)
  | errorf (format : String) (args : List String)
  | wrap (format : String) (args : List String) (cause : Error)
deriving DecidableEq, Repr

/-- Result of a call that may end in a Go run-time panic. -/
inductive Res (α : Type) where
  | ok (a : α)
  | panic (msg : String)
deriving DecidableEq, Repr

/-- The exit code when a step fails to launch. -/
def ExitLaunch : Int := 255
/-- The exit code when a step does not return an exit code. -/
def ExitUnknown : Int := 254
/-- The exit code when a step runs successfully. -/
def ExitOk : Int := 0

/-- A step of a build (`screwdriver.CommandDef`). -/
structure CommandDef where
  Name : String
  Cmd : String
deriving DecidableEq, Repr

/-- A build record (`screwdriver.Build`).  The type is declared outside the
two source files; `steps` holds the `command` of each entry of the field that
`launch` indexes as `b.steps[1].command`. -/
structure Build where
  ID : String
  JobID : String
  Commands : List CommandDef
  Environment : StrMap
  steps : List String
deriving DecidableEq, Repr

/-- A job record (`screwdriver.Job`). -/
structure Job where
  Name : String
  PipelineID : String
deriving DecidableEq, Repr

/-- A pipeline record (`screwdriver.Pipeline`), with `ScmRepo.Name` flattened. -/
structure Pipeline where
  ScmUri : String
  ScmRepoName : String
deriving DecidableEq, Repr

/-- The build states reported to the control plane. -/
inductive BuildStatus where
  | Running
  | Success
  | Failure
deriving DecidableEq, Repr

/-- A status report sent to the control plane. -/
inductive Report where
  | stepStart (buildID name : String)
  | stepStop (buildID name : String) (code : Int)
  | buildStatus (status : BuildStatus) (buildID : String)
deriving DecidableEq, Repr

/-- The values handed to `writeArtifact`. -/
inductive Artifact where
  | commands (cs : List CommandDef)
  | environment (env : StrMap)
deriving DecidableEq, Repr

/-- What the session's reader yields to one call of `scanner.Scan()`: a line,
or the end of the loop (end of input or a read error).  Each call of
`copyLinesUntil` makes a new scanner on the same reader, so a later call
reads on from the events that follow.  A scanner is taken to consume the
lines it returns and no more: read-ahead into its buffer is left out. -/
abbrev Reader := List (Option String)

/-- The mutable state around the program. -/
structure World where
  /-- Paths on which `os.Stat` succeeds. -/
  paths : List String
  /-- Successful `ioutil.WriteFile` calls in order: path and content. -/
  files : List (String × String)
  /-- Reports sent to the control plane, in order. -/
  reports : List Report
  /-- Output of the shell session that has not been read yet. -/
  reader : Reader
  /-- Texts written to the shell session. -/
  sent : List String
  /-- Lines printed on `os.Stdout`. -/
  stdout : List String
  /-- Number of identifiers drawn from `uuid.NewV4`. -/
  uuids : Nat
  /-- Shells started: working directory and environment. -/
  shells : List (String × List String)
deriving DecidableEq, Repr

/-- The collaborators of the program, outside the two source files. -/
structure Sys where
  /-- Result of `os.Environ()`. -/
  environ : List String
  /-- Reading of a status field as a number: `copyLinesUntil` compares the
  text `parts[1]` with `0` and returns it as the exit code without saying how
  it is converted. -/
  conv : String → Int
  /-- Go `path.Join` and `filepath.Join`. -/
  pathJoin : List String → String
  /-- The `n`-th identifier of `uuid.NewV4()`, as text. -/
  uuid : Nat → String
  /-- Opening the emitter at a path: the error, if any. -/
  newEmitter : String → Option Error
  /-- Answer of the control plane to a report, given the reports before it. -/
  report : List Report → Report → Option Error
  buildFromID : String → Except Error Build
  jobFromID : String → Except Error Job
  pipelineFromID : String → Except Error Pipeline
  secretsForBuild : Build → Except Error (List Secret)
  /-- Go `os.MkdirAll` on the existing paths: the other paths it makes on the
  way (parents) and the error, if any. -/
  mkdir : List String → String → List String × Option Error
  /-- Go `ioutil.WriteFile` given the earlier writes: the error, if any. -/
  writeFile : List (String × String) → String → String → Option Error
  /-- Go `json.MarshalIndent` with four spaces of indentation. -/
  marshal : Artifact → Except Error String
  /-- Starting `sh -i` on a pseudo-terminal: the error, if any. -/
  ptyStart : Option Error
  /-- The pull-request number `pr` that `launch` reads. -/
  pr : String
  /-- The source directory `repo.Path()` that `launch` reads. -/
  repoPath : String

/-- Go `stat(p)`: `true` when it returns no error. -/
def stat (p : String) (w : World) : Bool :=
  decide (p ∈ w.paths)

/-- Go `mkdirAll(p, 0777)`. -/
def mkdirAll (sys : Sys) (p : String) (w : World) : Option Error × World :=
  match sys.mkdir w.paths p with
  | (made, some e) => (some e, { w with paths := w.paths ++ made })
  | (made, none) => (none, { w with paths := w.paths ++ made ++ [p] })

/-- Go `writeFile(p, data, 0644)`. -/
def writeFile (sys : Sys) (p data : String) (w : World) : Option Error × World :=
  match sys.writeFile w.files p data with
  | some e => (some e, w)
  | none => (none, { w with files := w.files ++ [(p, data)], paths := w.paths ++ [p] })

/-- A report call on the control plane (`UpdateStepStart`, `UpdateStepStop`,
`UpdateBuildStatus`). -/
def apiReport (sys : Sys) (r : Report) (w : World) : Option Error × World :=
  (sys.report w.reports r, { w with reports := w.reports ++ [r] })

/-- Go `uuid.NewV4()`. -/
def newV4 (sys : Sys) (w : World) : String × World :=
  (sys.uuid w.uuids, { w with uuids := w.uuids + 1 })

/-! ## `executor.go` -/

/-- Outcome of `copyLinesUntil`. -/
structure Copied where
  /-- The returned exit code and error, or a panic. -/
  result : Res (Int × Option Error)
  /-- Lines printed on the writer, in order. -/
  forwarded : List String
  /-- Events of the reader left unread. -/
  rest : Reader
deriving DecidableEq, Repr

/-- The `if strings.HasPrefix(t, match)` block of `copyLinesUntil`: `some` when
it leaves the function (by `return` or by the panic of `parts[1]`), `none` when
control falls through to the print statement. -/
def matchBlock (conv : String → Int) (t m : String) : Option (Res (Int × Option Error)) :=
  if hasPrefix t m then
    let parts := split t ' '
    match parts[1]? with
    | none => some (.panic "index out of range")
    | some p1 =>
      if conv p1 ≠ 0 then
        some (.ok (conv p1, some (.errorf "launching command exit with code: %v" [p1])))
      else none
  else none

/-- Go `copyLinesUntil(r, w, match)`. -/
def copyLinesUntil (conv : String → Int) : Reader → String → Copied
  | [], _ => ⟨.ok (ExitOk, none), [], []⟩
  | none :: r, _ => ⟨.ok (ExitOk, none), [], r⟩
  | some t :: r, m =>
    match matchBlock conv t m with
    | some out => ⟨out, [], r⟩
    | none =>
      let c := copyLinesUntil conv r m
      { c with forwarded := t :: c.forwarded }

/-- The text `shargs` that `doRunCommand` writes to the session. -/
def executionCommand (guid path : String) : String :=
  join ["export SD_STEP_ID=" ++ guid, ";source" ++ path, ";echo" ++ guid ++ "$?"] " "

/-- The command text that the older `doRun` passes to `sh -c`. -/
def doRunCommandText (file guid : String) : String :=
  join ["source", file, ";echo", guid, "$?"] " "

/-- Go `doRunCommand(emitter, guid, path, f)`. -/
def doRunCommand (sys : Sys) (guid path : String) (w : World) :
    Res (Int × Option Error) × World :=
  let shargs := executionCommand guid path
  let w := { w with sent := w.sent ++ [shargs] }
  let c := copyLinesUntil sys.conv w.reader guid
  (c.result, { w with reader := c.rest, stdout := w.stdout ++ c.forwarded })

/-- Go `createShFile(path, cmd)`. -/
def createShFile (sys : Sys) (path : String) (cmd : CommandDef) (w : World) :
    Option Error × World :=
  let defaultStart := "#!/bin/sh -e"
  match writeFile sys path (defaultStart ++ "\n" ++ cmd.Cmd) w with
  | (some e, w) => (some (.wrap "Error creating shell script file: %v" [] e), w)
  | (none, w) => (none, w)

/-- The `for _, cmd := range cmds` loop of `Run`; a `return` inside the loop
leaves `Run`. -/
def runCommands (sys : Sys) (path buildID : String) :
    List CommandDef → World → Res (Option Error) × World
  | [], w => (.ok none, w)
  | cmd :: cmds, w =>
    match apiReport sys (.stepStart buildID cmd.Name) w with
    | (some e, w) => (.ok (some (.wrap "updating step start %q: %v" [cmd.Name] e)), w)
    | (none, w) =>
      let stepFilePath := sys.pathJoin [path, "step.sh"]
      match createShFile sys stepFilePath cmd w with
      | (some e, w) => (.ok (some (.wrap "writing to step script file: %v" [] e)), w)
      | (none, w) =>
        match newV4 sys w with
        | (guid, w) =>
          match doRunCommand sys guid stepFilePath w with
          | (.panic msg, w) => (.panic msg, w)
          | (.ok (code, cmdErr), w) =>
            match apiReport sys (.stepStop buildID cmd.Name code) w with
            | (some e, w) => (.ok (some (.wrap "updating step stop %q: %v" [cmd.Name] e)), w)
            | (none, w) =>
              match cmdErr with
              | some e => (.ok (some e), w)
              | none => runCommands sys path buildID cmds w

/-- Go `executor.Run(path, env, emitter, build, api, buildID)`. -/
def Run (sys : Sys) (path : String) (env : List String) (build : Build) (buildID : String)
    (w : World) : Res (Option Error) × World :=
  match sys.ptyStart with
  | some e => (.ok (some (.wrap "cannot start shell: %v" [] e)), w)
  | none =>
    let w := { w with shells := w.shells ++ [(path, env)] }
    let w := { w with sent := w.sent ++ ["source scripts/setup.sh"] }
    match runCommands sys path buildID build.Commands w with
    | (.ok none, w) => (.ok none, { w with sent := w.sent ++ ["\x04"] })
    | out => out

/-! ## `launch.go` -/

/-- The parts of a source location (`scmPath`). -/
structure ScmPath where
  Host : String
  Org : String
  Repo : String
  Branch : String
deriving DecidableEq, Repr

/-- Go `parseScmUri(scmUri, scmName)`. -/
def parseScmUri (scmUri scmName : String) : Except Error ScmPath :=
  let uri := split scmUri ':'
  let orgRepo := split scmName '/'
  match uri, orgRepo with
  | [u0, _, u2], [o0, o1] => .ok { Host := u0, Org := o0, Repo := o1, Branch := u2 }
  | _, _ => .error (.errorf "unable to parse scmUri %v and scmName %v" [scmUri, scmName])

/-- The paths available to a build. -/
structure Workspace where
  Root : String
  Src : String
  Artifacts : String
deriving DecidableEq, Repr

/-- The `for _, p := range paths` loop of `createWorkspace`: `some` is the
error with which the function returns from inside the loop. -/
def createPaths (sys : Sys) : List String → World → Option Error × World
  | [], w => (none, w)
  | p :: ps, w =>
    if stat p w then
      (some (.errorf "Cannot create workspace path %q, path already exists." [p]), w)
    else
      match mkdirAll sys p w with
      | (some e, w) => (some (.wrap "Cannot create workspace path %q: %v" [p] e), w)
      | (none, w) => createPaths sys ps w

/-- Go `createWorkspace(rootDir, srcPaths...)`. -/
def createWorkspace (sys : Sys) (rootDir : String) (srcPaths : List String) (w : World) :
    Except Error Workspace × World :=
  let srcPaths := "src" :: srcPaths
  let src := sys.pathJoin srcPaths
  let src := sys.pathJoin [rootDir, src]
  let artifacts := sys.pathJoin [rootDir, "artifacts"]
  let paths := [src, artifacts]
  match createPaths sys paths w with
  | (some e, w) => (.error e, w)
  | (none, w) => (.ok { Root := rootDir, Src := src, Artifacts := artifacts }, w)

/-- Go `writeArtifact(aDir, fName, artifact)`. -/
def writeArtifact (sys : Sys) (aDir fName : String) (artifact : Artifact) (w : World) :
    Option Error × World :=
  match sys.marshal artifact with
  | .error e => (some (.wrap "marshaling artifact: %v " [] e), w)
  | .ok data =>
    let pathToCreate := sys.pathJoin [aDir, fName]
    match writeFile sys pathToCreate data w with
    | (some e, w) => (some (.wrap "creating file %q : %v" [pathToCreate] e), w)
    | (none, w) => (none, w)

/-- The map `defaultEnv` built by `launch`. -/
def defaultEnv (sys : Sys) (oldJobName artifacts : String) : StrMap :=
  [("SCREWDRIVER", "true"),
   ("CI", "true"),
   ("CONTINUOUS_INTEGRATION", "true"),
   ("SD_JOB_NAME", oldJobName),
   ("SD_PULL_REQUEST", sys.pr),
   ("SD_SOURCE_DIR", sys.repoPath),
   ("SD_ARTIFACTS_DIR", artifacts)]

/-- Go `launch(api, buildID, rootDir, emitterPath)`.  The external command
`cd` that it runs, with its result dropped, and the deferred closing of the
emitter leave the modelled state as it is. -/
def launch (sys : Sys) (buildID rootDir emitterPath : String) (w : World) :
    Res (Option Error) × World :=
  match sys.newEmitter emitterPath with
  | some e => (.ok (some e), w)
  | none =>
  match apiReport sys (.stepStart buildID "sd-setup") w with
  | (some e, w) => (.ok (some (.wrap "updating sd-setup start: %v" [] e)), w)
  | (none, w) =>
  match apiReport sys (.buildStatus .Running buildID) w with
  | (some e, w) => (.ok (some (.wrap "updating build status to RUNNING: %v" [] e)), w)
  | (none, w) =>
  match sys.buildFromID buildID with
  | .error e => (.ok (some (.wrap "fetching build ID %q: %v" [buildID] e)), w)
  | .ok b =>
  match sys.jobFromID b.JobID with
  | .error e => (.ok (some (.wrap "fetching Job ID %q: %v" [b.JobID] e)), w)
  | .ok j =>
  match sys.pipelineFromID j.PipelineID with
  | .error e => (.ok (some (.wrap "fetching Pipeline ID %q: %v" [j.PipelineID] e)), w)
  | .ok p =>
  match parseScmUri p.ScmUri p.ScmRepoName with
  | .error e => (.ok (some e), w)
  | .ok scm =>
  match createWorkspace sys rootDir [scm.Host, scm.Org] w with
  | (.error e, w) => (.ok (some e), w)
  | (.ok ws, w) =>
  let oldJobName := j.Name
  match b.steps[1]? with
  | none => (.panic "index out of range", w)
  | some _checkoutCommand =>
  match writeArtifact sys ws.Artifacts "steps.json" (.commands b.Commands) w with
  | (some e, w) => (.ok (some (.wrap "creating steps.json artifact: %v" [] e)), w)
  | (none, w) =>
  match writeArtifact sys ws.Artifacts "environment.json" (.environment b.Environment) w with
  | (some e, w) => (.ok (some (.wrap "creating environment.json artifact: %v" [] e)), w)
  | (none, w) =>
  let defaults := defaultEnv sys oldJobName ws.Artifacts
  match sys.secretsForBuild b with
  | .error _ => (.ok (some (.errorf "Fetching secrets for build %s" [b.ID])), w)
  | .ok secrets =>
  let env := createEnvironment sys.environ defaults secrets
  match apiReport sys (.stepStop buildID "sd-setup" 0) w with
  | (some e, w) => (.ok (some (.wrap "updating sd-setup stop: %v" [] e)), w)
  | (none, w) =>
  Run sys sys.repoPath env b buildID w

/-- First of two optional values that is present. -/
def firstSome (a b : Option String) : Option String :=
  match a with
  | some x => some x
  | none => b

/-- Value that a listing of bindings gives to `k` when later bindings
override earlier ones. -/
def lastValue : StrMap → String → Option String
  | [], _ => none
  | (k', v) :: rest, k => firstSome (lastValue rest k) (if k' = k then some v else none)

/-- Key and value of an entry `KEY=VALUE` of the inherited environment, cut at
its first `=`; `none` for an entry without `=`. -/
def entryOf (e : String) : Option (String × String) :=
  match splitAfterN2 e with
  | [p0, p1] => some (String.mk p0.data.dropLast, p1)
  | _ => none

/-- Value of variable `k` by the precedence rule of the specification:
secrets, then declared build variables, then base defaults, then the
inherited process environment. -/
def specValue (environ : List String) (base declared : StrMap) (secrets : List Secret)
    (k : String) : Option String :=
  firstSome (lastValue (secrets.map (fun s => (s.Name, s.Value))) k)
    (firstSome (lastValue declared k)
      (firstSome (lastValue base k) (lastValue (environ.filterMap entryOf) k)))

/-- Value of the decimal numeral formed by the characters, most significant
first, after the digits already read as `acc`. -/
def decimalValue : List Char → Nat → Option Nat
  | [], acc => some acc
  | c :: cs, acc =>
    if c.isDigit then decimalValue cs (10 * acc + (c.toNat - '0'.toNat)) else none

/-- A decimal reading of a status field, `-1` for a text that is not a
numeral; one possible `Sys.conv`. -/
def atoi (s : String) : Int :=
  match s.data with
  | [] => -1
  | c :: cs =>
    match decimalValue (c :: cs) 0 with
    | some n => n
    | none => -1

/-- The keys of a map are pairwise distinct. -/
def StrMap.Wf (m : StrMap) : Prop := (m.map Prod.fst).Nodup

/-- One round of a loop that binds the key and value read from an item. -/
def bindItem {α : Type} (g : α → Option (String × String)) (m : StrMap) (a : α) : StrMap :=
  match g a with
  | some p => m.set p.1 p.2
  | none => m

/-- The map `combined` of `createEnvironment` before the denylist is applied. -/
def combinedOf (environ : List String) (base : StrMap) (secrets : List Secret) : StrMap :=
  secrets.foldl (bindItem (fun s => some (s.Name, s.Value)))
    (base.foldl (bindItem some) (environ.foldl (bindItem entryOf) []))

/-- A `path.Join` for clean components: the non-empty ones with `/` between
them; one possible `Sys.pathJoin`. -/
def slashJoin (xs : List String) : String :=
  "/".intercalate (xs.filter (fun x => x ≠ ""))

/-- A build of three steps. -/
def sampleBuild : Build where
  ID := "42"
  JobID := "7"
  Commands := [⟨"install", "npm install"⟩, ⟨"test", "npm test"⟩, ⟨"publish", "npm publish"⟩]
  Environment := [("NODE_ENV", "test")]
  steps := ["git clone", "git checkout"]

/-- The job of the sample build. -/
def sampleJob : Job where
  Name := "main"
  PipelineID := "3"

/-- The pipeline of the sample build. -/
def samplePipeline : Pipeline where
  ScmUri := "github.com:123:master"
  ScmRepoName := "screwdriver-cd/launcher"

/-- A system in which every collaborator works: identifiers `u-`, `ux-`,
`uxx-`, ..., an inherited environment of two variables, one secret, and the
sample build, job and pipeline. -/
def sampleSys : Sys where
  environ := ["PATH=/bin", "SD_TOKEN=jwt"]
  conv := atoi
  pathJoin := slashJoin
  uuid := fun n => String.mk ('u' :: List.replicate n 'x' ++ ['-'])
  newEmitter := fun _ => none
  report := fun _ _ => none
  buildFromID := fun _ => .ok sampleBuild
  jobFromID := fun _ => .ok sampleJob
  pipelineFromID := fun _ => .ok samplePipeline
  secretsForBuild := fun _ => .ok [⟨"NPM_KEY", "hunter2"⟩]
  mkdir := fun _ _ => ([], none)
  writeFile := fun _ _ _ => none
  marshal := fun a =>
    match a with
    | .commands cs => .ok (";".intercalate (cs.map (fun c => c.Name ++ ":" ++ c.Cmd)))
    | .environment env => .ok (";".intercalate (env.map (fun p => p.1 ++ "=" ++ p.2)))
  ptyStart := none
  pr := ""
  repoPath := "/sd/workspace/src/github.com/screwdriver-cd/launcher"

/-- A world with nothing on disk, nothing reported and the given session output. -/
def emptyWorld (reader : Reader) : World where
  paths := []
  files := []
  reports := []
  reader := reader
  sent := []
  stdout := []
  uuids := 0
  shells := []

/-- A world in which only the given paths exist. -/
def pathsOnly (paths : List String) : World where
  paths := paths
  files := []
  reports := []
  reader := []
  sent := []
  stdout := []
  uuids := 0
  shells := []

/-! ## Strings -/

theorem join_pair (k v : String) : join [k, v] "=" = k ++ "=" ++ v := by
  simp [join, String.intercalate, String.intercalate.go]

theorem splitAfterEqChars_spec (cs : List Char) :
    (∃ k p1, splitAfterEqChars cs = [k ++ ['='], p1] ∧ '=' ∉ k) ∨
      splitAfterEqChars cs = [cs] := by
  induction cs with
  | nil => right; rfl
  | cons c cs ih =>
    by_cases hc : c = '='
    · left
      refine ⟨[], cs, ?_, by simp⟩
      simp [splitAfterEqChars, hc]
    · rcases ih with ⟨k, p1, h, hk⟩ | h
      · left
        refine ⟨c :: k, p1, ?_, ?_⟩
        · simp [splitAfterEqChars, hc, h]
        · simp [hk, Ne.symm hc]
      · right
        simp only [splitAfterEqChars, hc, if_false, h]

theorem entryOf_key (e k v : String) (h : entryOf e = some (k, v)) : '=' ∉ k.data := by
  unfold entryOf splitAfterN2 at h
  rcases splitAfterEqChars_spec e.data with ⟨k0, p1, hs, hk⟩ | hs
  · rw [hs] at h
    simp at h
    rw [← h.1]
    simpa using hk
  · rw [hs] at h
    simp at h

theorem eq_of_append_sep (c : Char) :
    ∀ (a b x y : List Char), c ∉ a → c ∉ b → a ++ c :: x = b ++ c :: y → a = b := by
  intro a
  induction a with
  | nil =>
    intro b x y _ hb h
    cases b with
    | nil => rfl
    | cons d b =>
      simp at h
      exact absurd h.1 (by intro hcd; exact hb (by simp [hcd]))
  | cons d a ih =>
    intro b x y ha hb h
    cases b with
    | nil =>
      simp at h
      exact absurd h.1.symm (by intro hcd; exact ha (by simp [hcd]))
    | cons d2 b =>
      simp at h
      have := ih b x y (by intro hm; exact ha (by simp [hm])) (by intro hm; exact hb (by simp [hm])) h.2
      rw [h.1, this]

/-! ## Maps -/

theorem find_filter_ne (m : StrMap) (k k' : String) (h : ¬ k = k') :
    (m.filter (fun p => p.1 ≠ k)).find? (fun p => p.1 = k') = m.find? (fun p => p.1 = k') := by
  induction m with
  | nil => rfl
  | cons p m ih =>
    by_cases hp : p.1 = k
    · have hp2 : ¬ p.1 = k' := by rw [hp]; exact h
      rw [List.filter_cons_of_neg (by simpa using hp), List.find?_cons_of_neg _ (by simpa using hp2)]
      exact ih
    · rw [List.filter_cons_of_pos (by simpa using hp)]
      by_cases hp2 : p.1 = k'
      · rw [List.find?_cons_of_pos _ (by simpa using hp2),
          List.find?_cons_of_pos _ (by simpa using hp2)]
      · rw [List.find?_cons_of_neg _ (by simpa using hp2),
          List.find?_cons_of_neg _ (by simpa using hp2)]
        exact ih

theorem find_filter_same (m : StrMap) (k : String) :
    (m.filter (fun p => p.1 ≠ k)).find? (fun p => p.1 = k) = none := by
  rw [List.find?_eq_none]
  intro x hx
  have := (List.mem_filter.mp hx).2
  simpa using this

theorem StrMap.get_set (m : StrMap) (k v k' : String) :
    (m.set k v).get k' = if k = k' then some v else m.get k' := by
  unfold StrMap.set StrMap.get
  by_cases h : k = k'
  · simp [h]
  · simp only [h, if_false]
    rw [List.find?_cons_of_neg _ (by simpa using h), find_filter_ne m k k' h]

theorem StrMap.get_delete (m : StrMap) (k k' : String) :
    (m.delete k).get k' = if k = k' then none else m.get k' := by
  unfold StrMap.delete StrMap.get
  by_cases h : k = k'
  · subst h
    simp only [if_true]
    rw [find_filter_same]
    rfl
  · simp only [h, if_false]
    rw [find_filter_ne m k k' h]

theorem StrMap.wf_filter (m : StrMap) (q : String × String → Bool) (h : StrMap.Wf m) :
    StrMap.Wf (m.filter q) := by
  unfold StrMap.Wf at *
  exact List.Nodup.sublist (List.Sublist.map _ (List.filter_sublist m)) h

theorem StrMap.wf_set (m : StrMap) (k v : String) (h : StrMap.Wf m) : StrMap.Wf (m.set k v) := by
  have h2 := StrMap.wf_filter m (fun p => p.1 ≠ k) h
  unfold StrMap.Wf StrMap.set at *
  simp only [List.map_cons, List.nodup_cons]
  refine ⟨?_, h2⟩
  simp [List.mem_map, List.mem_filter]

theorem StrMap.wf_delete (m : StrMap) (k : String) (h : StrMap.Wf m) :
    StrMap.Wf (m.delete k) :=
  StrMap.wf_filter m _ h

theorem StrMap.mem_iff_get (m : StrMap) (h : StrMap.Wf m) (k v : String) :
    (k, v) ∈ m ↔ m.get k = some v := by
  unfold StrMap.Wf at h
  unfold StrMap.get
  induction m with
  | nil => simp
  | cons p m ih =>
    obtain ⟨pk, pv⟩ := p
    simp only [List.map_cons, List.nodup_cons] at h
    by_cases hp : pk = k
    · subst hp
      simp only [List.mem_cons, Prod.mk.injEq, true_and, List.find?_cons_of_pos, decide_True,
        Option.map_some']
      constructor
      · rintro (h1 | h1)
        · simp [h1]
        · exact absurd (List.mem_map_of_mem Prod.fst h1) h.1
      · intro h1
        left
        simpa using h1.symm
    · rw [List.find?_cons_of_neg _ (by simpa using hp)]
      rw [← ih h.2]
      simp [hp, Ne.symm hp]

/-! ## createEnvironment -/

theorem firstSome_none_right (a : Option String) : firstSome a none = a := by
  cases a <;> rfl

theorem foldl_bindItem_get {α : Type} (g : α → Option (String × String)) (l : List α) :
    ∀ (m0 : StrMap) (k : String),
      (l.foldl (bindItem g) m0).get k = firstSome (lastValue (l.filterMap g) k) (m0.get k) := by
  induction l with
  | nil => intro m0 k; rfl
  | cons a l ih =>
    intro m0 k
    rw [List.foldl_cons, ih]
    cases hg : g a with
    | none => simp [bindItem, hg, List.filterMap_cons]
    | some p =>
      obtain ⟨pk, pv⟩ := p
      simp only [bindItem, hg, List.filterMap_cons, lastValue, StrMap.get_set]
      cases lastValue (List.filterMap g l) k with
      | some x => rfl
      | none =>
        by_cases h : pk = k
        · simp [h, firstSome]
        · simp [h, firstSome]

theorem foldl_bindItem_wf {α : Type} (g : α → Option (String × String)) (l : List α) :
    ∀ (m0 : StrMap), StrMap.Wf m0 → StrMap.Wf (l.foldl (bindItem g) m0) := by
  induction l with
  | nil => intro m0 h; exact h
  | cons a l ih =>
    intro m0 h
    rw [List.foldl_cons]
    apply ih
    unfold bindItem
    cases g a with
    | none => exact h
    | some p => exact StrMap.wf_set m0 p.1 p.2 h

theorem addEnviron_eq : addEnviron = bindItem entryOf := by
  funext m e
  unfold addEnviron bindItem entryOf
  split <;> simp_all

theorem createEnvironment_eq (environ : List String) (base : StrMap) (secrets : List Secret) :
    createEnvironment environ base secrets =
      ((combinedOf environ base secrets).delete "SD_TOKEN").map (fun p => join [p.1, p.2] "=") := by
  unfold createEnvironment combinedOf
  rw [addEnviron_eq]
  rfl

theorem combinedOf_get (environ : List String) (base : StrMap) (secrets : List Secret)
    (k : String) :
    (combinedOf environ base secrets).get k = specValue environ base [] secrets k := by
  unfold combinedOf specValue
  rw [foldl_bindItem_get, foldl_bindItem_get, foldl_bindItem_get]
  have h1 : List.filterMap (fun s : Secret => some (s.Name, s.Value)) secrets =
      secrets.map (fun s => (s.Name, s.Value)) := by
    induction secrets with
    | nil => rfl
    | cons s ss ih => simp [List.filterMap_cons, ih]
  have h2 : List.filterMap some base = base := by simp
  rw [h1, h2]
  simp only [lastValue, StrMap.get, List.find?_nil, Option.map_none', firstSome_none_right]
  rfl

theorem combinedOf_wf (environ : List String) (base : StrMap) (secrets : List Secret) :
    StrMap.Wf (combinedOf environ base secrets) := by
  unfold combinedOf
  apply foldl_bindItem_wf
  apply foldl_bindItem_wf
  apply foldl_bindItem_wf
  simp [StrMap.Wf]

/-- Membership in the result of `createEnvironment`. -/
theorem mem_createEnvironment (environ : List String) (base : StrMap) (secrets : List Secret)
    (s : String) :
    s ∈ createEnvironment environ base secrets ↔
      ∃ k v, k ≠ "SD_TOKEN" ∧ specValue environ base [] secrets k = some v ∧
        s = k ++ "=" ++ v := by
  rw [createEnvironment_eq, List.mem_map]
  have hwf := StrMap.wf_delete _ "SD_TOKEN" (combinedOf_wf environ base secrets)
  constructor
  · rintro ⟨⟨k, v⟩, hmem, hs⟩
    rw [StrMap.mem_iff_get _ hwf, StrMap.get_delete, combinedOf_get] at hmem
    refine ⟨k, v, ?_, ?_, ?_⟩
    · intro hk
      rw [hk] at hmem
      simp at hmem
    · by_cases hk : "SD_TOKEN" = k
      · simp [hk] at hmem
      · simpa [hk] using hmem
    · rw [← hs, join_pair]
  · rintro ⟨k, v, hk, hv, hs⟩
    refine ⟨(k, v), ?_, ?_⟩
    · rw [StrMap.mem_iff_get _ hwf, StrMap.get_delete, combinedOf_get]
      simp [Ne.symm hk, hv]
    · rw [hs, join_pair]

theorem lastValue_mem (l : StrMap) (k v : String) (h : lastValue l k = some v) : (k, v) ∈ l := by
  induction l with
  | nil => simp [lastValue] at h
  | cons p l ih =>
    obtain ⟨pk, pv⟩ := p
    simp only [lastValue] at h
    cases hl : lastValue l k with
    | some x =>
      rw [hl] at h
      simp only [firstSome] at h
      exact List.mem_cons_of_mem _ (ih (by rw [hl, h]))
    | none =>
      rw [hl] at h
      simp only [firstSome] at h
      by_cases hk : pk = k
      · simp [hk] at h
        simp [hk, h]
      · simp [hk] at h

/-! ## Environment builder: statements -/

/-- C1 (counterexample): with base `A=1`, declared `A=2, B=3` and secret `A=4`
the precedence rule of the specification gives `B` the value `3`, and `B` is
not on the denylist, yet `B=3` is not in the list that `createEnvironment`
returns: the function has no input for declared build variables. -/
theorem createEnvironment_omits_declared :
    specValue [] [("A", "1")] [("A", "2"), ("B", "3")] [⟨"A", "4"⟩] "B" = some "3" ∧
      "B" ∉ denylist ∧
      "B=3" ∉ createEnvironment [] [("A", "1")] [⟨"A", "4"⟩] ∧
      "A=4" ∈ createEnvironment [] [("A", "1")] [⟨"A", "4"⟩] := by
  decide

/-- C1 (amended): the elements of the list returned by `createEnvironment` are
exactly the texts `KEY=VALUE` for the keys not on the denylist, each with the
value of its highest-precedence source in the order secrets, base defaults,
inherited environment; declared build variables are not a source. -/
theorem createEnvironment_precedence (environ : List String) (base : StrMap)
    (secrets : List Secret) (s : String) :
    s ∈ createEnvironment environ base secrets ↔
      ∃ k v, k ∉ denylist ∧ specValue environ base [] secrets k = some v ∧
        s = k ++ "=" ++ v := by
  rw [mem_createEnvironment]
  simp [denylist]

/-- C7 (counterexample): a secret whose name is `SD_TOKEN=x` puts the element
`SD_TOKEN=x=y` in the result, which defines `SD_TOKEN` with the value `x=y`. -/
theorem createEnvironment_token_by_secret_name :
    ("SD_TOKEN=" ++ "x=y") ∈ createEnvironment [] [] [⟨"SD_TOKEN=x", "y"⟩] := by
  decide

/-- C7 (amended): when no key of the base map and no secret name contains the
character `=`, no element of the list returned by `createEnvironment` has the
form `SD_TOKEN=<value>`, whatever the inherited environment, the base map and
the secrets define for `SD_TOKEN`. -/
theorem createEnvironment_never_token (environ : List String) (base : StrMap)
    (secrets : List Secret)
    (hbase : ∀ p ∈ base, '=' ∉ p.1.data)
    (hsecrets : ∀ s ∈ secrets, '=' ∉ s.Name.data)
    (value : String) :
    ("SD_TOKEN=" ++ value) ∉ createEnvironment environ base secrets := by
  intro hmem
  rw [mem_createEnvironment] at hmem
  obtain ⟨k, v, hk, hv, hs⟩ := hmem
  have hkey : '=' ∉ k.data := by
    unfold specValue at hv
    cases h1 : lastValue (secrets.map (fun s => (s.Name, s.Value))) k with
    | some x =>
      have hm := lastValue_mem _ _ _ h1
      rw [List.mem_map] at hm
      obtain ⟨s, hs1, hs2⟩ := hm
      have := hsecrets s hs1
      simp only [Prod.mk.injEq] at hs2
      rw [← hs2.1]
      exact this
    | none =>
      rw [h1] at hv
      simp only [firstSome, lastValue] at hv
      cases h2 : lastValue base k with
      | some x =>
        exact hbase (k, x) (lastValue_mem _ _ _ h2)
      | none =>
        rw [h2] at hv
        simp only at hv
        have hm := lastValue_mem _ _ _ hv
        rw [List.mem_filterMap] at hm
        obtain ⟨e, _, he⟩ := hm
        exact entryOf_key e k v he
  apply hk
  have hd : ("SD_TOKEN=" ++ value).data = (k ++ "=" ++ v).data := by rw [hs]
  simp only [String.data_append] at hd
  have h3 : "SD_TOKEN".data ++ '=' :: value.data = k.data ++ '=' :: v.data := by
    simpa using hd
  have h4 := eq_of_append_sep '=' _ _ _ _ (by decide) hkey h3
  exact (String.ext h4).symm

/-- C7 (witness): an inherited `SD_TOKEN`, a base default `SD_TOKEN` and a
secret named `SD_TOKEN` together. -/
theorem createEnvironment_never_token_witness :
    ("SD_TOKEN=" ++ "c") ∉
      createEnvironment ["SD_TOKEN=a", "PATH=/bin"] [("SD_TOKEN", "b"), ("CI", "true")]
        [⟨"SD_TOKEN", "c"⟩, ⟨"NPM_KEY", "k"⟩] :=
  createEnvironment_never_token _ _ _ (by decide) (by decide) "c"

/-! ## Step runner: statements -/

/-- C2: on the lines `hello`, `tok 0`, `next` with token `tok`, the code
forwards all three lines, the token line included, and reads on to the end of
the input before it returns success. -/
theorem copyLinesUntil_forwards_token_line :
    copyLinesUntil atoi [some "hello", some "tok 0", some "next"] "tok" =
      ⟨.ok (ExitOk, none), ["hello", "tok 0", "next"], []⟩ := by
  decide

/-- C3: when the input ends and no line carried the token, the code returns
`ExitOk` with no error, whatever the reading of status fields. -/
theorem copyLinesUntil_end_of_input_is_success (conv : String → Int) :
    (copyLinesUntil conv [some "hello"] "tok").result = .ok (ExitOk, none) ∧
      (copyLinesUntil conv [] "tok").result = .ok (ExitOk, none) := by
  constructor
  · have h : matchBlock conv "hello" "tok" = none := by
      unfold matchBlock
      rw [if_neg (by decide)]
    simp [copyLinesUntil, h]
  · rfl

/-- C9: the text submitted by `doRunCommand` has no space between `source` and
the path, none between `echo` and the token, and none between the token and
`$?`; the text of the older `doRun` has all three. -/
theorem executionCommand_text :
    (∀ g p : String, executionCommand g p =
      "export SD_STEP_ID=" ++ g ++ " " ++ (";source" ++ p) ++ " " ++ (";echo" ++ g ++ "$?")) ∧
    executionCommand "g" "/p/step.sh" = "export SD_STEP_ID=g ;source/p/step.sh ;echog$?" ∧
    doRunCommandText "/p/step.sh" "g" = "source /p/step.sh ;echo g $?" := by
  refine ⟨?_, by decide, by decide⟩
  intro g p
  simp [executionCommand, join, String.intercalate, String.intercalate.go]

/-- C10: a line equal to the token, and a line in which other text follows the
token at once, have the token as a prefix and split into one field only; on
each of them the access to the second field panics. -/
theorem copyLinesUntil_missing_field (conv : String → Int) :
    hasPrefix "tok" "tok" = true ∧ split "tok" ' ' = ["tok"] ∧
      (copyLinesUntil conv [some "tok"] "tok").result = .panic "index out of range" ∧
    hasPrefix "tok7" "tok" = true ∧ split "tok7" ' ' = ["tok7"] ∧
      (copyLinesUntil conv [some "tok7"] "tok").result = .panic "index out of range" := by
  have h1 : matchBlock conv "tok" "tok" = some (.panic "index out of range") := by
    unfold matchBlock
    rw [if_pos (by decide)]
    have : split "tok" ' ' = ["tok"] := by decide
    simp [this]
  have h2 : matchBlock conv "tok7" "tok" = some (.panic "index out of range") := by
    unfold matchBlock
    rw [if_pos (by decide)]
    have : split "tok7" ' ' = ["tok7"] := by decide
    simp [this]
  refine ⟨by decide, by decide, ?_, by decide, by decide, ?_⟩
  · simp [copyLinesUntil, h1]
  · simp [copyLinesUntil, h2]

/-! ## Workspace manager -/

theorem mkdirAll_paths_subset (sys : Sys) (p : String) (w : World) :
    ∀ q ∈ w.paths, q ∈ (mkdirAll sys p w).2.paths := by
  intro q hq
  unfold mkdirAll
  split <;> simp [hq]

theorem createPaths_conflict (sys : Sys) :
    ∀ (ps : List String) (w : World), (∃ p ∈ ps, p ∈ w.paths) →
      ∃ e, (createPaths sys ps w).1 = some e := by
  intro ps
  induction ps with
  | nil => intro w h; simp at h
  | cons p ps ih =>
    intro w h
    unfold createPaths
    by_cases hp : p ∈ w.paths
    · simp [stat, hp]
    · simp only [stat, hp, decide_False, Bool.false_eq_true, if_false]
      have hsub := mkdirAll_paths_subset sys p w
      cases hm : mkdirAll sys p w with
      | mk r w1 =>
        rw [hm] at hsub
        cases r with
        | some e => exact ⟨_, rfl⟩
        | none =>
          apply ih
          obtain ⟨q, hq, hqw⟩ := h
          rcases List.mem_cons.mp hq with rfl | hq2
          · exact absurd hqw hp
          · exact ⟨q, hq2, hsub q hqw⟩

/-- C6: when `root/src/<segments>` or `root/artifacts` exists, `createWorkspace`
returns an error and no workspace; and when `root/src/<segments>` exists, so
that the rejection comes before any creation, the world after the call is the
world before it. -/
theorem createWorkspace_conflict (sys : Sys) (rootDir : String) (segments : List String)
    (w : World)
    (h : sys.pathJoin [rootDir, sys.pathJoin ("src" :: segments)] ∈ w.paths ∨
      sys.pathJoin [rootDir, "artifacts"] ∈ w.paths) :
    (∃ e, (createWorkspace sys rootDir segments w).1 = .error e) ∧
      (sys.pathJoin [rootDir, sys.pathJoin ("src" :: segments)] ∈ w.paths →
        createWorkspace sys rootDir segments w =
          (.error (.errorf "Cannot create workspace path %q, path already exists."
            [sys.pathJoin [rootDir, sys.pathJoin ("src" :: segments)]]), w)) := by
  constructor
  · have hc := createPaths_conflict sys
      [sys.pathJoin [rootDir, sys.pathJoin ("src" :: segments)],
        sys.pathJoin [rootDir, "artifacts"]] w
      (by rcases h with h | h
          · exact ⟨_, by simp, h⟩
          · exact ⟨_, by simp, h⟩)
    obtain ⟨e, he⟩ := hc
    have hpair : createPaths sys
        [sys.pathJoin [rootDir, sys.pathJoin ("src" :: segments)],
          sys.pathJoin [rootDir, "artifacts"]] w = (some e, (createPaths sys
        [sys.pathJoin [rootDir, sys.pathJoin ("src" :: segments)],
          sys.pathJoin [rootDir, "artifacts"]] w).2) := Prod.ext he rfl
    refine ⟨e, ?_⟩
    simp only [createWorkspace]
    rw [hpair]
  · intro hsrc
    simp [createWorkspace, createPaths, stat, hsrc]

/-- C6 (witness): the source directory of the workspace exists already. -/
theorem createWorkspace_conflict_witness :
    (∃ e, (createWorkspace sampleSys "/sd/workspace" ["github.com", "screwdriver-cd"]
        { emptyWorld [] with paths := ["/sd/workspace/src/github.com/screwdriver-cd"] }).1 =
          .error e) ∧
      createWorkspace sampleSys "/sd/workspace" ["github.com", "screwdriver-cd"]
          { emptyWorld [] with paths := ["/sd/workspace/src/github.com/screwdriver-cd"] } =
        (.error (.errorf "Cannot create workspace path %q, path already exists."
          ["/sd/workspace/src/github.com/screwdriver-cd"]),
          { emptyWorld [] with paths := ["/sd/workspace/src/github.com/screwdriver-cd"] }) :=
  have h := createWorkspace_conflict sampleSys "/sd/workspace" ["github.com", "screwdriver-cd"]
    { emptyWorld [] with paths := ["/sd/workspace/src/github.com/screwdriver-cd"] }
    (Or.inl (by decide))
  ⟨h.1, h.2 (by decide)⟩

/-! ## Build orchestrator -/

/-- C5: `copyLinesUntil` returns without an error only when its scanner has
stopped: the code is then `ExitOk`, and the reader held the forwarded lines
followed either by nothing or by an end of input.  A terminator line with
status 0 is among the forwarded lines and does not end the call, so a step
that ends with status 0 in a session that stays open gets no stop report. -/
theorem copyLinesUntil_success_only_at_end (conv : String → Int) (m : String) (r : Reader)
    (c : Int) (h : (copyLinesUntil conv r m).result = .ok (c, none)) :
    c = ExitOk ∧
      ((r = (copyLinesUntil conv r m).forwarded.map some ∧ (copyLinesUntil conv r m).rest = []) ∨
        r = (copyLinesUntil conv r m).forwarded.map some ++
          none :: (copyLinesUntil conv r m).rest) := by
  induction r with
  | nil =>
    simp only [copyLinesUntil, Res.ok.injEq, Prod.mk.injEq] at h
    exact ⟨h.1.symm, Or.inl ⟨rfl, rfl⟩⟩
  | cons ev r ih =>
    cases ev with
    | none =>
      simp only [copyLinesUntil, Res.ok.injEq, Prod.mk.injEq] at h
      exact ⟨h.1.symm, Or.inr rfl⟩
    | some t =>
      cases hb : matchBlock conv t m with
      | none =>
        simp only [copyLinesUntil, hb] at h ⊢
        obtain ⟨hc, hr⟩ := ih h
        refine ⟨hc, ?_⟩
        rcases hr with ⟨h1, h2⟩ | h1
        · left
          exact ⟨by rw [List.map_cons, ← h1], h2⟩
        · right
          rw [List.map_cons, List.cons_append, ← h1]
      | some out =>
        simp only [copyLinesUntil, hb] at h
        subst h
        unfold matchBlock at hb
        split at hb
        · simp only at hb
          split at hb
          · simp at hb
          · split at hb <;> simp at hb
        · simp at hb

/-- C5 (witness): with the status-0 terminators of three steps in the session
output, the call for the first token `u-` forwards all lines, the three
terminators included, and returns at the end of the input. -/
theorem copyLinesUntil_success_only_at_end_witness :
    (0 : Int) = ExitOk ∧
      (([some "hi", some "u- 0", some "ux- 0", some "uxx- 0"] =
          (copyLinesUntil atoi [some "hi", some "u- 0", some "ux- 0", some "uxx- 0"]
            "u-").forwarded.map some ∧
        (copyLinesUntil atoi [some "hi", some "u- 0", some "ux- 0", some "uxx- 0"] "u-").rest =
          []) ∨
        [some "hi", some "u- 0", some "ux- 0", some "uxx- 0"] =
          (copyLinesUntil atoi [some "hi", some "u- 0", some "ux- 0", some "uxx- 0"]
            "u-").forwarded.map some ++
          none :: (copyLinesUntil atoi [some "hi", some "u- 0", some "ux- 0", some "uxx- 0"]
            "u-").rest) :=
  copyLinesUntil_success_only_at_end atoi "u-"
    [some "hi", some "u- 0", some "ux- 0", some "uxx- 0"] 0 (by decide)

theorem mkdirAll_frame (sys : Sys) (p : String) (w : World) :
    (mkdirAll sys p w).2 = { w with paths := (mkdirAll sys p w).2.paths } := by
  unfold mkdirAll
  split <;> rfl

theorem mkdirAll_congr (sys : Sys) (p : String) (w w' : World) (h : w.paths = w'.paths) :
    (mkdirAll sys p w).1 = (mkdirAll sys p w').1 ∧
      (mkdirAll sys p w).2.paths = (mkdirAll sys p w').2.paths := by
  unfold mkdirAll
  rw [h]
  split <;> simp

theorem createPaths_frame (sys : Sys) (ps : List String) :
    ∀ w : World, (createPaths sys ps w).2 = { w with paths := (createPaths sys ps w).2.paths } := by
  induction ps with
  | nil => intro w; rfl
  | cons p ps ih =>
    intro w
    unfold createPaths
    split
    · rfl
    · have hf := mkdirAll_frame sys p w
      cases hm : mkdirAll sys p w with
      | mk r w1 =>
        rw [hm] at hf
        simp only at hf
        cases r with
        | some e => exact hf
        | none =>
          simp only
          rw [ih w1]
          rw [hf]

theorem createPaths_congr (sys : Sys) (ps : List String) :
    ∀ w w' : World, w.paths = w'.paths →
      (createPaths sys ps w).1 = (createPaths sys ps w').1 ∧
        (createPaths sys ps w).2.paths = (createPaths sys ps w').2.paths := by
  induction ps with
  | nil => intro w w' h; exact ⟨rfl, h⟩
  | cons p ps ih =>
    intro w w' h
    have hc := mkdirAll_congr sys p w w' h
    unfold createPaths
    simp only [stat, h]
    split
    · exact ⟨rfl, h⟩
    · cases hm : mkdirAll sys p w with
      | mk r w1 =>
        cases hm' : mkdirAll sys p w' with
        | mk r' w1' =>
          rw [hm, hm'] at hc
          simp only at hc
          obtain ⟨hr, hp⟩ := hc
          subst hr
          cases r with
          | some e => exact ⟨rfl, hp⟩
          | none => exact ih w1 w1' hp

theorem createWorkspace_frame (sys : Sys) (rootDir : String) (segments : List String)
    (w : World) :
    (createWorkspace sys rootDir segments w).2 =
      { w with paths := (createWorkspace sys rootDir segments w).2.paths } := by
  have hf := createPaths_frame sys
    [sys.pathJoin [rootDir, sys.pathJoin ("src" :: segments)], sys.pathJoin [rootDir, "artifacts"]] w
  simp only [createWorkspace]
  cases hp : createPaths sys
    [sys.pathJoin [rootDir, sys.pathJoin ("src" :: segments)], sys.pathJoin [rootDir, "artifacts"]]
    w with
  | mk r w1 =>
    rw [hp] at hf
    cases r <;> exact hf

theorem createWorkspace_congr (sys : Sys) (rootDir : String) (segments : List String)
    (w w' : World) (h : w.paths = w'.paths) :
    (createWorkspace sys rootDir segments w).1 = (createWorkspace sys rootDir segments w').1 ∧
      (createWorkspace sys rootDir segments w).2.paths =
        (createWorkspace sys rootDir segments w').2.paths := by
  have hc := createPaths_congr sys
    [sys.pathJoin [rootDir, sys.pathJoin ("src" :: segments)], sys.pathJoin [rootDir, "artifacts"]]
    w w' h
  simp only [createWorkspace]
  cases hp : createPaths sys
    [sys.pathJoin [rootDir, sys.pathJoin ("src" :: segments)], sys.pathJoin [rootDir, "artifacts"]]
    w with
  | mk r w1 =>
    cases hp' : createPaths sys
      [sys.pathJoin [rootDir, sys.pathJoin ("src" :: segments)],
        sys.pathJoin [rootDir, "artifacts"]] w' with
    | mk r' w1' =>
      rw [hp, hp'] at hc
      simp only at hc
      obtain ⟨hr, hpp⟩ := hc
      subst hr
      cases r <;> exact ⟨rfl, hpp⟩

/-! ## Artifacts -/

theorem runCommands_files (sys : Sys) (path buildID : String) (cmds : List CommandDef) :
    ∀ w : World, ∃ l, (runCommands sys path buildID cmds w).2.files = w.files ++ l ∧
      ∀ x ∈ l, x.1 = sys.pathJoin [path, "step.sh"] := by
  induction cmds with
  | nil => intro w; exact ⟨[], by simp [runCommands], by simp⟩
  | cons cmd cmds ih =>
    intro w
    simp only [runCommands, apiReport]
    cases h1 : sys.report w.reports (Report.stepStart buildID cmd.Name) with
    | some e => exact ⟨[], by simp, by simp⟩
    | none =>
      simp only [createShFile, writeFile]
      cases h2 : sys.writeFile w.files (sys.pathJoin [path, "step.sh"])
          ("#!/bin/sh -e" ++ "\n" ++ cmd.Cmd) with
      | some e => exact ⟨[], by simp, by simp⟩
      | none =>
        simp only [newV4, doRunCommand]
        cases h3 : (copyLinesUntil sys.conv w.reader (sys.uuid w.uuids)).result with
        | panic msg => exact ⟨[(sys.pathJoin [path, "step.sh"], "#!/bin/sh -e" ++ "\n" ++ cmd.Cmd)], by simp, by simp⟩
        | ok cr =>
          obtain ⟨code, cmdErr⟩ := cr
          simp only
          cases h4 : sys.report (w.reports ++ [Report.stepStart buildID cmd.Name])
              (Report.stepStop buildID cmd.Name code) with
          | some e => exact ⟨[(sys.pathJoin [path, "step.sh"], "#!/bin/sh -e" ++ "\n" ++ cmd.Cmd)], by simp, by simp⟩
          | none =>
            cases cmdErr with
            | some e => exact ⟨[(sys.pathJoin [path, "step.sh"], "#!/bin/sh -e" ++ "\n" ++ cmd.Cmd)], by simp, by simp⟩
            | none =>
              simp only
              obtain ⟨l, hl, hl2⟩ := ih
                { w with
                  paths := w.paths ++ [sys.pathJoin [path, "step.sh"]]
                  files := w.files ++
                    [(sys.pathJoin [path, "step.sh"], "#!/bin/sh -e" ++ "\n" ++ cmd.Cmd)]
                  reports := w.reports ++ [Report.stepStart buildID cmd.Name] ++
                    [Report.stepStop buildID cmd.Name code]
                  reader := (copyLinesUntil sys.conv w.reader (sys.uuid w.uuids)).rest
                  sent := w.sent ++
                    [executionCommand (sys.uuid w.uuids) (sys.pathJoin [path, "step.sh"])]
                  stdout := w.stdout ++
                    (copyLinesUntil sys.conv w.reader (sys.uuid w.uuids)).forwarded
                  uuids := w.uuids + 1 }
              refine ⟨(sys.pathJoin [path, "step.sh"], "#!/bin/sh -e" ++ "\n" ++ cmd.Cmd) :: l, ?_, ?_⟩
              · rw [hl]
                simp
              · intro x hx
                rcases List.mem_cons.mp hx with rfl | hx
                · rfl
                · exact hl2 x hx

theorem Run_files (sys : Sys) (path : String) (env : List String) (b : Build)
    (buildID : String) (w : World) :
    ∃ l, (Run sys path env b buildID w).2.files = w.files ++ l ∧
      ∀ x ∈ l, x.1 = sys.pathJoin [path, "step.sh"] := by
  obtain ⟨l, hl, hl2⟩ := runCommands_files sys path buildID b.Commands
    { w with shells := w.shells ++ [(path, env)], sent := w.sent ++ ["source scripts/setup.sh"] }
  unfold Run
  cases sys.ptyStart with
  | some e => exact ⟨[], by simp, by simp⟩
  | none =>
    simp only
    cases hr : runCommands sys path buildID b.Commands
      { w with shells := w.shells ++ [(path, env)], sent := w.sent ++ ["source scripts/setup.sh"] } with
    | mk r w1 =>
      rw [hr] at hl
      simp only at hl
      refine ⟨l, ?_, hl2⟩
      split <;> simp_all

theorem createPaths_sys (sys : Sys) (f : Build → Except Error (List Secret))
    (ps : List String) :
    ∀ w : World, createPaths { sys with secretsForBuild := f } ps w = createPaths sys ps w := by
  induction ps with
  | nil => intro w; rfl
  | cons p ps ih =>
    intro w
    have hm : mkdirAll { sys with secretsForBuild := f } p w = mkdirAll sys p w := rfl
    simp only [createPaths, hm, ih]

theorem createWorkspace_norm (sys : Sys) (f : Build → Except Error (List Secret))
    (rootDir : String) (segments : List String) (w : World) :
    createWorkspace { sys with secretsForBuild := f } rootDir segments w =
      ((createWorkspace sys rootDir segments (pathsOnly w.paths)).1,
        { w with paths := (createWorkspace sys rootDir segments (pathsOnly w.paths)).2.paths }) := by
  have h1 : createWorkspace { sys with secretsForBuild := f } rootDir segments w =
      createWorkspace sys rootDir segments w := by
    simp only [createWorkspace, createPaths_sys]
  have hc := createWorkspace_congr sys rootDir segments w (pathsOnly w.paths) rfl
  have hf := createWorkspace_frame sys rootDir segments w
  rw [h1]
  refine Prod.ext hc.1 ?_
  rw [hf]
  simp only [hc.2]

theorem launch_files (sys : Sys) (buildID rootDir emitterPath : String) (w : World)
    (f : Build → Except Error (List Secret)) (r : Reader) :
    ∃ l, (launch { sys with secretsForBuild := f } buildID rootDir emitterPath
          { w with reader := r }).2.files =
        (launch { sys with secretsForBuild := fun _ => .error (.external "") } buildID rootDir
          emitterPath { w with reader := [] }).2.files ++ l ∧
      ∀ x ∈ l, x.1 = sys.pathJoin [sys.repoPath, "step.sh"] := by
  unfold launch
  simp only [apiReport, createWorkspace_norm]
  cases h1 : sys.newEmitter emitterPath with
  | some e => exact ⟨[], by simp, by simp⟩
  | none =>
    simp only
    cases h2 : sys.report w.reports (Report.stepStart buildID "sd-setup") with
    | some e => exact ⟨[], by simp, by simp⟩
    | none =>
      simp only
      cases h3 : sys.report (w.reports ++ [Report.stepStart buildID "sd-setup"])
          (Report.buildStatus BuildStatus.Running buildID) with
      | some e => exact ⟨[], by simp, by simp⟩
      | none =>
        simp only
        cases h4 : sys.buildFromID buildID with
        | error e => exact ⟨[], by simp, by simp⟩
        | ok b =>
          simp only
          cases h5 : sys.jobFromID b.JobID with
          | error e => exact ⟨[], by simp, by simp⟩
          | ok j =>
            simp only
            cases h6 : sys.pipelineFromID j.PipelineID with
            | error e => exact ⟨[], by simp, by simp⟩
            | ok p =>
              simp only
              cases h7 : parseScmUri p.ScmUri p.ScmRepoName with
              | error e => exact ⟨[], by simp, by simp⟩
              | ok scm =>
                simp only
                cases h8 : (createWorkspace sys rootDir [scm.Host, scm.Org] (pathsOnly w.paths)).1 with
                | error e => exact ⟨[], by simp, by simp⟩
                | ok ws =>
                  simp only
                  cases h9 : b.steps[1]? with
                  | none => exact ⟨[], by simp, by simp⟩
                  | some cc =>
                    simp only [writeArtifact, writeFile]
                    cases h10 : sys.marshal (Artifact.commands b.Commands) with
                    | error e => exact ⟨[], by simp, by simp⟩
                    | ok d1 =>
                      simp only
                      cases h11 : sys.writeFile w.files (sys.pathJoin [ws.Artifacts, "steps.json"])
                          d1 with
                      | some e => exact ⟨[], by simp, by simp⟩
                      | none =>
                        simp only
                        cases h12 : sys.marshal (Artifact.environment b.Environment) with
                        | error e => exact ⟨[], by simp, by simp⟩
                        | ok d2 =>
                          simp only
                          cases h13 : sys.writeFile
                              (w.files ++ [(sys.pathJoin [ws.Artifacts, "steps.json"], d1)])
                              (sys.pathJoin [ws.Artifacts, "environment.json"]) d2 with
                          | some e => exact ⟨[], by simp, by simp⟩
                          | none =>
                            simp only
                            cases h14 : f b with
                            | error e => exact ⟨[], by simp, by simp⟩
                            | ok secrets =>
                              simp only
                              cases h15 : sys.report
                                  (w.reports ++ [Report.stepStart buildID "sd-setup"] ++
                                    [Report.buildStatus BuildStatus.Running buildID])
                                  (Report.stepStop buildID "sd-setup" 0) with
                              | some e => exact ⟨[], by simp, by simp⟩
                              | none =>
                                simp only
                                exact Run_files _ _ _ _ _ _

/-- C8: the writes that `launch` makes to a path other than the step script,
the files `steps.json` and `environment.json` of the artifacts directory among
them, are the same in two runs that differ in the secrets which the control
plane returns and in what the shell session prints. -/
theorem launch_artifacts_without_secrets (sys : Sys) (buildID rootDir emitterPath : String)
    (w : World) (secrets' : Build → Except Error (List Secret)) (reader' : Reader)
    (fName : String)
    (hpath : sys.pathJoin [sys.pathJoin [rootDir, "artifacts"], fName] ≠
      sys.pathJoin [sys.repoPath, "step.sh"]) :
    ((launch { sys with secretsForBuild := secrets' } buildID rootDir emitterPath
        { w with reader := reader' }).2.files.filter
          (fun x => x.1 = sys.pathJoin [sys.pathJoin [rootDir, "artifacts"], fName])) =
      ((launch sys buildID rootDir emitterPath w).2.files.filter
          (fun x => x.1 = sys.pathJoin [sys.pathJoin [rootDir, "artifacts"], fName])) := by
  obtain ⟨l1, h1, hl1⟩ := launch_files sys buildID rootDir emitterPath w secrets' reader'
  obtain ⟨l2, h2, hl2⟩ := launch_files sys buildID rootDir emitterPath w sys.secretsForBuild
    w.reader
  have h3 : launch { sys with secretsForBuild := sys.secretsForBuild } buildID rootDir emitterPath
      { w with reader := w.reader } = launch sys buildID rootDir emitterPath w := rfl
  rw [h3] at h2
  have hnil : ∀ l : List (String × String),
      (∀ x ∈ l, x.1 = sys.pathJoin [sys.repoPath, "step.sh"]) →
      l.filter (fun x => x.1 = sys.pathJoin [sys.pathJoin [rootDir, "artifacts"], fName]) = [] := by
    intro l hl
    rw [List.filter_eq_nil_iff]
    intro x hx
    have := hl x hx
    simp only [decide_eq_true_eq]
    intro hx2
    exact hpath (by rw [← hx2, this])
  rw [h1, h2, List.filter_append, List.filter_append, hnil l1 hl1, hnil l2 hl2]

/-- C8 (witness): the sample build, run with another secret and another
session output, writes to `environment.json` what the declared environment
holds and nothing of the secret. -/
theorem launch_artifacts_without_secrets_witness :
    ((launch { sampleSys with secretsForBuild := fun _ => .ok [⟨"NPM_KEY", "other"⟩] } "42"
        "/sd/workspace" "/var/run/sd/emitter"
        { emptyWorld [some "hi"] with reader := [some "bye", some "u- 3"] }).2.files.filter
          (fun x => x.1 = sampleSys.pathJoin
            [sampleSys.pathJoin ["/sd/workspace", "artifacts"], "environment.json"])) =
      [("/sd/workspace/artifacts/environment.json", "NODE_ENV=test")] :=
  (launch_artifacts_without_secrets sampleSys "42" "/sd/workspace" "/var/run/sd/emitter"
    (emptyWorld [some "hi"]) (fun _ => .ok [⟨"NPM_KEY", "other"⟩]) [some "bye", some "u- 3"]
    "environment.json" (by decide)).trans (by decide)

end Launcher
